import Mathlib

/-!
Verification of the resumable ZoomInfo lead-generation crawler
(`commmander-ai/zi-lead-generation`).

The JavaScript sources are shallowly embedded as pure Lean functions:

* JS strings are modelled as `List Char` (`JStr`); JS identifier values
  (company / contact ids, which the code only ever consumes through
  `.toString()`) as `JsVal`.
* `config/searchParams.js` : `cleanJobTitles`, `getSearchCombinations`
  (parametrised by the loaded parameter groups, which the source reads
  from a static JSON file).
* `services/bucketService.js` : the in-memory exclusion `Set` is modelled
  as an insertion-ordered duplicate-free `List JStr`; durable writes and
  uploads are modelled by `Except` valued oracles.
* `services/stateManager.js` : `SMState` record plus `saveState`.
* `services/zoomInfoService.js` : token cache state (`ZIState`),
  `getJwtToken` / `refreshToken` / `makeAPICall` with the remote API as an
  oracle; the retry recursion is run on explicit fuel, called with fuel
  larger than the retry budget so the fuel sentinel is unreachable.
* `services/leadProcessor.js` : the company-pagination loop
  (`pagLoop` / `processCombination`), the driver
  (`processAllCombinations`), and the per-company contact enrichment loop
  (`processContactsForCompany`).  The remote search endpoint is an oracle
  from the request to its result; the loop additionally records every
  company-search request it issues so that theorems can speak about the
  requested page numbers.
-/

namespace ZiLead

/-- JS strings are modelled as lists of characters. -/
abbrev JStr := List Char

/-- Opening brace character (written via its code point). -/
def braceOpen : Char := Char.ofNat 123

/-- Closing brace character (written via its code point). -/
def braceClose : Char := Char.ofNat 125

/-- Double-quote character (written via its code point). -/
def quoteChar : Char := Char.ofNat 34

/-- Space character. -/
def spaceChar : Char := Char.ofNat 32

/-- Decimal digits of `n`, via structural fuel (`fuel > n` suffices), so the
function evaluates by kernel reduction. -/
def natToCharsAux : Nat → Nat → List Char
  | 0, _ => []
  | Nat.succ fuel, n =>
    if n < 10 then [Nat.digitChar n]
    else natToCharsAux fuel (n / 10) ++ [Nat.digitChar (n % 10)]

/-- Decimal string of a natural number, as produced by JS
`Number.prototype.toString` on a non-negative integer. -/
def natToChars (n : Nat) : List Char := natToCharsAux (n + 1) n

/-- A JS value that the source only consumes through `.toString()`:
company and contact ids arriving in JSON responses. -/
inductive JsVal where
  | num (n : Nat)
  | str (s : JStr)
deriving DecidableEq

/-- JS `.toString()` on an id value. -/
def jsToString : JsVal → JStr
  | JsVal.num n => natToChars n
  | JsVal.str s => s

/-- Does `l` start with `pre`? (JS `String.prototype.startsWith`). -/
def startsWithL : List Char → List Char → Bool
  | _, [] => true
  | [], _ :: _ => false
  | c :: cs, d :: ds => c == d && startsWithL cs ds

/-- Does `hay` contain `needle` as a contiguous substring?
(JS `String.prototype.includes`). -/
def containsSub : List Char → List Char → Bool
  | [], needle => needle.isEmpty
  | c :: t, needle => startsWithL (c :: t) needle || containsSub t needle

/-- `location.includes(' - ') || location.includes(', ')` — the metro-region
versus state classification used throughout `leadProcessor.js`. -/
def isMetroRegion (location : JStr) : Bool :=
  containsSub location [spaceChar, '-', spaceChar] || containsSub location [',', spaceChar]

/-- Leading characters stripped by the regex `^[{"}]+` in `cleanJobTitles`. -/
def isLeadStripChar (c : Char) : Bool :=
  c == braceOpen || c == quoteChar || c == braceClose

/-- Trailing characters stripped by the regex `["}]+$` in `cleanJobTitles`. -/
def isTrailStripChar (c : Char) : Bool :=
  c == quoteChar || c == braceClose

/-- Drop the longest suffix of characters satisfying `p`. -/
def dropTrailWhile (p : Char → Bool) (l : List Char) : List Char :=
  (l.reverse.dropWhile p).reverse

/-- `title.replace(/^[{"}]+|["}]+$/g, '')` : remove the maximal leading run
of brace or quote characters and the maximal trailing run of quote or
closing-brace characters. -/
def stripEnds (l : JStr) : JStr :=
  dropTrailWhile isTrailStripChar (l.dropWhile isLeadStripChar)

/-- JS whitespace recognised by `String.prototype.trim` (the code points that
occur in this code base's data: space, tab, LF, CR). -/
def isJsSpace (c : Char) : Bool :=
  c == spaceChar || c == Char.ofNat 9 || c == Char.ofNat 10 || c == Char.ofNat 13

/-- JS `String.prototype.trim`. -/
def trim (l : JStr) : JStr :=
  dropTrailWhile isJsSpace (l.dropWhile isJsSpace)

/-- JS `String.prototype.split(',')`: splitting on every comma; an empty
string yields `[[]]`, like `''.split(',') === ['']`. -/
def splitOnComma : JStr → List JStr
  | [] => [[]]
  | c :: rest =>
    if c == ',' then [] :: splitOnComma rest
    else
      match splitOnComma rest with
      | [] => [[c]]
      | h :: t => (c :: h) :: t

/-- The body of `cleanJobTitles`'s `flatMap` for one non-empty raw title:
strip surrounding braces/quotes, split on commas, trim each part, and drop
empties (`searchParams.js` lines 26-34). -/
def cleanOneTitle (t : JStr) : List JStr :=
  ((splitOnComma (stripEnds t)).map trim).filter (fun u => !u.isEmpty)

/-- `cleanJobTitles` (`searchParams.js` lines 23-35).  The
`Array.isArray` guard is outside the model: the input is already a list.
A falsy (empty) title contributes nothing. -/
def cleanJobTitles (ts : List JStr) : List JStr :=
  ts.flatMap fun t => if t.isEmpty then [] else cleanOneTitle t

/-- One NAICS entry of a parameter group. -/
structure NaicsEntry where
  naicsCode : JStr
  name : JStr
deriving DecidableEq

/-- One search-parameter group as loaded from `extracted_parameters.json`;
a field that may be absent in the JSON is an `Option`. -/
structure ParamGroup where
  locations : Option (List JStr)
  job_titles : Option (List JStr)
  naics_codes : Option (List NaicsEntry)
deriving DecidableEq

/-- JS truthiness of `xs?.length`: the field is present and non-empty. -/
def hasLen {α : Type} (o : Option (List α)) : Bool :=
  match o with
  | some l => !l.isEmpty
  | none => false

/-- A group is processed unless `!locations?.length || !job_titles?.length ||
!naics_codes?.length` (`searchParams.js` line 47). -/
def validGroup (g : ParamGroup) : Bool :=
  hasLen g.locations && hasLen g.job_titles && hasLen g.naics_codes

/-- One search combination (`searchParams.js` lines 57-63). -/
structure Combination where
  groupIndex : Nat
  location : JStr
  naicsCode : JStr
  naicsName : JStr
  jobTitle : JStr
deriving DecidableEq

/-- The nested `location / naicsCode / jobTitle` loops for one valid group
(`searchParams.js` lines 54-66). -/
def groupCombinations (gi : Nat) (g : ParamGroup) : List Combination :=
  let locations := g.locations.getD []
  let naicsCodes := g.naics_codes.getD []
  let cleanedJobTitles := cleanJobTitles (g.job_titles.getD [])
  locations.flatMap fun location =>
    naicsCodes.flatMap fun naicsCode =>
      cleanedJobTitles.map fun jobTitle =>
        { groupIndex := gi
          location := trim location
          naicsCode := naicsCode.naicsCode
          naicsName := naicsCode.name
          jobTitle := trim jobTitle }

/-- The outer `groupIndex` loop of `getSearchCombinations`. -/
def combosFromGroups : Nat → List ParamGroup → List Combination
  | _, [] => []
  | gi, g :: gs =>
    (if validGroup g then groupCombinations gi g else []) ++ combosFromGroups (gi + 1) gs

/-- `getSearchCombinations` (`searchParams.js` lines 38-70), parametrised by
the parameter groups that `loadSearchParameterGroups` reads from disk. -/
def getSearchCombinations (groups : List ParamGroup) : List Combination :=
  combosFromGroups 0 groups

lemma length_flatMap_const {α β : Type} (f : α → List β) (c : Nat)
    (h : ∀ a, (f a).length = c) :
    ∀ l : List α, (l.flatMap f).length = l.length * c := by
  intro l
  induction l with
  | nil => simp
  | cons a t ih => simp [List.flatMap_cons, h a, ih, Nat.succ_mul, Nat.add_comm]

lemma groupCombinations_length (gi : Nat) (g : ParamGroup) :
    (groupCombinations gi g).length =
      (g.locations.getD []).length *
        ((g.naics_codes.getD []).length * (cleanJobTitles (g.job_titles.getD [])).length) := by
  unfold groupCombinations
  refine length_flatMap_const _ _ (fun _ => ?_) _
  refine length_flatMap_const _ _ (fun _ => ?_) _
  simp

lemma combosFromGroups_length (gs : List ParamGroup) :
    ∀ gi, (combosFromGroups gi gs).length =
      (gs.map fun g =>
        if validGroup g then
          (g.locations.getD []).length * (cleanJobTitles (g.job_titles.getD [])).length *
            (g.naics_codes.getD []).length
        else 0).sum := by
  induction gs with
  | nil => intro gi; simp [combosFromGroups]
  | cons g t ih =>
    intro gi
    by_cases h : validGroup g = true
    · simp only [combosFromGroups, h, if_true, List.length_append, List.map_cons, List.sum_cons,
        groupCombinations_length, ih (gi + 1)]
      ring
    · simp only [combosFromGroups, h, List.length_append, List.map_cons, List.sum_cons,
        if_false, Bool.false_eq_true, List.length_nil, ih (gi + 1)]

/-- C5: the number of combinations produced by `getSearchCombinations` is the
sum, over the groups whose `locations`, `job_titles` and `naics_codes` lists
are all present and non-empty, of
`|locations| * |titles after cleaning| * |naics_codes|`; a group missing any
of the three lists contributes zero combinations. -/
theorem combination_count_eq_sum_of_products (groups : List ParamGroup) :
    (getSearchCombinations groups).length =
      (groups.map fun g =>
        if validGroup g then
          (g.locations.getD []).length * (cleanJobTitles (g.job_titles.getD [])).length *
            (g.naics_codes.getD []).length
        else 0).sum :=
  combosFromGroups_length groups 0

/-- C7 counterexample: `cleanJobTitles` is not idempotent.  The raw title
`a,{b` cleans to the two titles `a` and `{b` — the comma split exposes a
brace that the edge-stripping regex, which already ran, no longer sees —
and cleaning a second time strips that brace, giving `a` and `b`. -/
theorem cleanJobTitles_not_idempotent :
    (cleanJobTitles (cleanJobTitles [['a', ',', braceOpen, 'b']]) =
      cleanJobTitles [['a', ',', braceOpen, 'b']]) = False :=
  eq_false (by decide)

lemma dropTrailWhile_idem (p : Char → Bool) (l : List Char) :
    dropTrailWhile p (dropTrailWhile p l) = dropTrailWhile p l := by
  simp [dropTrailWhile, List.dropWhile_idempotent]

lemma dropWhile_fixed_cases (p : Char → Bool) (l : List Char)
    (h : l.dropWhile p = l) : l = [] ∨ ∃ a t, l = a :: t ∧ p a = false := by
  cases l with
  | nil => exact Or.inl rfl
  | cons a t =>
    refine Or.inr ⟨a, t, rfl, ?_⟩
    by_contra hpa
    rw [Bool.not_eq_false] at hpa
    rw [List.dropWhile_cons_of_pos hpa] at h
    have := congrArg List.length h
    have hle := (List.dropWhile_sublist (l := t) (p := p)).length_le
    simp at this
    omega

lemma dropTrailWhile_cons_of_neg (p : Char → Bool) (a : Char) (t : List Char)
    (ha : p a = false) : dropTrailWhile p (a :: t) = a :: dropTrailWhile p t := by
  unfold dropTrailWhile
  rw [List.reverse_cons, List.dropWhile_append]
  by_cases h : (t.reverse.dropWhile p).isEmpty = true
  · simp [h, List.dropWhile_cons, ha, List.isEmpty_iff.mp h]
  · simp [h]

lemma trim_idem (l : JStr) : trim (trim l) = trim l := by
  unfold trim
  rcases dropWhile_fixed_cases isJsSpace (l.dropWhile isJsSpace)
    (List.dropWhile_idempotent _ _) with h | ⟨a, t, h, ha⟩
  · rw [h]
    simp [dropTrailWhile]
  · rw [h, dropTrailWhile_cons_of_neg _ _ _ ha,
      List.dropWhile_cons_of_neg (p := isJsSpace) (by simp [ha]),
      dropTrailWhile_cons_of_neg _ _ _ ha, dropTrailWhile_idem]

lemma mem_of_mem_dropTrailWhile {p : Char → Bool} {l : List Char} {x : Char}
    (h : x ∈ dropTrailWhile p l) : x ∈ l := by
  unfold dropTrailWhile at h
  rw [List.mem_reverse] at h
  have := (List.dropWhile_sublist (l := l.reverse) (p := p)).subset h
  rwa [List.mem_reverse] at this

lemma mem_of_mem_trim {l : JStr} {x : Char} (h : x ∈ trim l) : x ∈ l := by
  unfold trim at h
  exact (List.dropWhile_sublist _).subset (mem_of_mem_dropTrailWhile h)

lemma splitOnComma_ne_nil (l : JStr) : splitOnComma l ≠ [] := by
  induction l with
  | nil => simp [splitOnComma]
  | cons c rest ih =>
    unfold splitOnComma
    by_cases h : (c == ',') = true
    · simp [h]
    · simp only [h]
      cases hs : splitOnComma rest with
      | nil => simp
      | cons a b => simp

lemma not_comma_mem_of_mem_splitOnComma {l : JStr} {u : JStr}
    (h : u ∈ splitOnComma l) : ',' ∉ u := by
  induction l generalizing u with
  | nil =>
    simp [splitOnComma] at h
    simp [h]
  | cons c rest ih =>
    unfold splitOnComma at h
    by_cases hc : (c == ',') = true
    · simp only [hc, if_true, List.mem_cons] at h
      rcases h with rfl | h
      · simp
      · exact ih h
    · have hc' : (c == ',') = false := by simpa using hc
      rw [hc'] at h
      cases hs : splitOnComma rest with
      | nil => exact absurd hs (splitOnComma_ne_nil rest)
      | cons a b =>
        rw [hs] at h
        simp only [Bool.false_eq_true, if_false, List.mem_cons] at h
        rcases h with rfl | h
        · intro hm
          rcases List.mem_cons.mp hm with rfl | hm
          · simp at hc'
          · exact ih (hs ▸ List.mem_cons_self a b) hm
        · exact ih (hs ▸ List.mem_cons_of_mem a h)

lemma splitOnComma_of_not_mem {l : JStr} (h : ',' ∉ l) : splitOnComma l = [l] := by
  induction l with
  | nil => rfl
  | cons c rest ih =>
    have h1 : c ≠ ',' := fun he => h (he ▸ List.mem_cons_self c rest)
    have hc : (c == ',') = false := by
      simp [beq_iff_eq]
      exact h1
    have hrest : ',' ∉ rest := fun hm => h (List.mem_cons_of_mem c hm)
    unfold splitOnComma
    simp only [hc, ih hrest, Bool.false_eq_true, if_false]

lemma mem_cleanJobTitles_shape {ts : List JStr} {u : JStr}
    (h : u ∈ cleanJobTitles ts) : trim u = u ∧ ',' ∉ u ∧ u ≠ [] := by
  unfold cleanJobTitles at h
  rcases List.mem_flatMap.mp h with ⟨t, _, hu⟩
  by_cases ht : t.isEmpty = true
  · simp [ht] at hu
  · simp only [ht, if_false, Bool.false_eq_true, cleanOneTitle, List.mem_filter,
      List.mem_map] at hu
    rcases hu with ⟨⟨w, hw, rfl⟩, hne⟩
    refine ⟨trim_idem w, ?_, ?_⟩
    · intro hm
      exact not_comma_mem_of_mem_splitOnComma hw (mem_of_mem_trim hm)
    · simpa using hne

lemma flatMap_singleton_of_forall {α : Type} {l : List α} {f : α → List α}
    (h : ∀ a ∈ l, f a = [a]) : l.flatMap f = l := by
  induction l with
  | nil => rfl
  | cons a t ih =>
    rw [List.flatMap_cons, h a (List.mem_cons_self a t),
      ih (fun b hb => h b (List.mem_cons_of_mem a hb))]
    rfl

/-- C7 amended: a second pass of `cleanJobTitles` can strip further edge
characters that its comma split exposed, so the function is idempotent only
for inputs whose cleaned titles carry no strippable leading or trailing
characters — that is, whenever every title in `cleanJobTitles ts` is a fixed
point of the edge-stripping step, `cleanJobTitles (cleanJobTitles ts) =
cleanJobTitles ts`. -/
theorem cleanJobTitles_idempotent_of_stripped (ts : List JStr)
    (h : ∀ u ∈ cleanJobTitles ts, stripEnds u = u) :
    cleanJobTitles (cleanJobTitles ts) = cleanJobTitles ts := by
  unfold cleanJobTitles
  refine flatMap_singleton_of_forall (fun u hu => ?_)
  have hu' : u ∈ cleanJobTitles ts := hu
  rcases mem_cleanJobTitles_shape hu' with ⟨htrim, hcomma, hne⟩
  have hne' : u.isEmpty = false := by simpa using hne
  simp only [hne', if_false, Bool.false_eq_true, cleanOneTitle, h u hu',
    splitOnComma_of_not_mem hcomma, List.map_cons, List.map_nil, htrim, List.filter,
    hne', Bool.not_false]

/-- Witness for C7 amended: the already-clean list `[ab]` satisfies the
stripped-titles hypothesis, and cleaning it twice equals cleaning it once. -/
theorem cleanJobTitles_idempotent_of_stripped_witness :
    (∀ u ∈ cleanJobTitles [['a', 'b']], stripEnds u = u) ∧
      cleanJobTitles (cleanJobTitles [['a', 'b']]) = cleanJobTitles [['a', 'b']] :=
  ⟨by decide, cleanJobTitles_idempotent_of_stripped [['a', 'b']] (by decide)⟩

/-- JS `Set.prototype.add` on the exclusion set: membership-unique,
insertion-ordered (`bucketService.js` line 105). -/
def setAdd (s : List JStr) (x : JStr) : List JStr :=
  if x ∈ s then s else s ++ [x]

/-- `newZiIds.forEach(ziId => set.add(ziId.toString()))` for a list of
already-stringified ids. -/
def addAllStr (s : List JStr) (xs : List JStr) : List JStr :=
  xs.foldl setAdd s

/-- `BucketService.isCompanyExcluded` (`bucketService.js` lines 47-49):
`this.companyExclusions.has(ziId.toString())`. -/
def isCompanyExcluded (excl : List JStr) (ziId : JsVal) : Bool :=
  decide (jsToString ziId ∈ excl)

/-- `BucketService.updateCompanyExclusions` (`bucketService.js` lines
102-120): add the stringified ids to the in-memory set, then write the
full set to the local file and upload it; the local write and the bucket
upload are oracles, and an error from either is re-thrown (the `catch`
block logs and re-raises).  Returns the new in-memory set together with
the outcome. -/
def updateCompanyExclusions (excl : List JStr) (newZiIds : List JsVal)
    (writeRes uploadRes : Except JStr Unit) : List JStr × Except JStr Unit :=
  let excl1 := addAllStr excl (newZiIds.map jsToString)
  match writeRes with
  | Except.error e => (excl1, Except.error e)
  | Except.ok _ =>
    match uploadRes with
    | Except.error e => (excl1, Except.error e)
    | Except.ok _ => (excl1, Except.ok ())

/-- A sequence of later `updateCompanyExclusions` calls, seen through their
effect on the in-memory set (the set mutation does not depend on the write
and upload outcomes, which `updateCompanyExclusions` only reports). -/
def applyUpdates (s : List JStr) (batches : List (List JsVal)) : List JStr :=
  batches.foldl (fun acc b => addAllStr acc (b.map jsToString)) s

/-- The `StateManager` state record (`stateManager.js` lines 8-18) restricted
to the fields the lead processor reads or writes, plus
`currentCombinationIndex`, which `updateProgress` adds dynamically. -/
structure SMState where
  currentCombinationIndex : Nat
  currentPage : Nat
  processedCompanies : Nat
  processedContacts : Nat
  completed : Bool
  lastSaveTime : Option JStr
deriving DecidableEq

/-- `StateManager.saveState` (`stateManager.js` lines 47-57): stamps
`lastSaveTime`, then writes the state file; the write outcome is an oracle.
The `catch` block only logs — a write error is swallowed and the method
returns normally. -/
def saveState (st : SMState) (now : JStr) (writeRes : Except JStr Unit) :
    SMState × Except JStr Unit :=
  let st1 := { st with lastSaveTime := some now }
  match writeRes with
  | Except.ok _ => (st1, Except.ok ())
  | Except.error _ => (st1, Except.ok ())

/-- C2 counterexample: `StateManager.saveState` does not re-raise a write
failure — with a failing write oracle it still returns success, so the
claim that both `saveState` and `updateCompanyExclusions` propagate write
errors is false. -/
theorem saveState_swallows_write_error :
    ((saveState ⟨0, 1, 0, 0, false, none⟩ ['t'] (Except.error ['d', 'i', 's', 'k'])).2 =
      Except.error ['d', 'i', 's', 'k']) = False :=
  eq_false (by intro h; simp [saveState] at h)

/-- C2 amended: only `BucketService.updateCompanyExclusions` re-raises a
durable-write failure (whether the local file write or the bucket upload
fails); `StateManager.saveState` catches the write error, logs it, and
returns normally, so a progress-write failure does not abort the current
unit of work. -/
theorem write_error_propagation :
    (∀ st now e, (saveState st now (Except.error e)).2 = Except.ok ()) ∧
      (∀ excl ids e uploadRes,
        (updateCompanyExclusions excl ids (Except.error e) uploadRes).2 = Except.error e) ∧
      (∀ excl ids e,
        (updateCompanyExclusions excl ids (Except.ok ()) (Except.error e)).2 =
          Except.error e) :=
  ⟨fun _ _ _ => rfl, fun _ _ _ _ => rfl, fun _ _ _ => rfl⟩

lemma mem_setAdd_of_mem {s : List JStr} {x : JStr} (y : JStr) (h : x ∈ s) :
    x ∈ setAdd s y := by
  unfold setAdd
  by_cases hy : y ∈ s
  · simpa [hy]
  · simp [hy, List.mem_append, h]

lemma mem_setAdd_self (s : List JStr) (x : JStr) : x ∈ setAdd s x := by
  unfold setAdd
  by_cases hx : x ∈ s
  · simp [hx]
  · simp [hx]

lemma mem_addAllStr_of_mem {s : List JStr} {x : JStr} (xs : List JStr) (h : x ∈ s) :
    x ∈ addAllStr s xs := by
  induction xs generalizing s with
  | nil => exact h
  | cons y ys ih => exact ih (mem_setAdd_of_mem y h)

lemma mem_addAllStr_of_mem_arg {s : List JStr} {x : JStr} {xs : List JStr} (h : x ∈ xs) :
    x ∈ addAllStr s xs := by
  induction xs generalizing s with
  | nil => cases h
  | cons y ys ih =>
    rcases List.mem_cons.mp h with rfl | h
    · exact mem_addAllStr_of_mem ys (mem_setAdd_self s x)
    · exact ih h

lemma mem_applyUpdates_of_mem {s : List JStr} {x : JStr} (batches : List (List JsVal))
    (h : x ∈ s) : x ∈ applyUpdates s batches := by
  induction batches generalizing s with
  | nil => exact h
  | cons b bs ih => exact ih (mem_addAllStr_of_mem _ h)

lemma addAllStr_eq_self {s : List JStr} {xs : List JStr} (h : ∀ x ∈ xs, x ∈ s) :
    addAllStr s xs = s := by
  induction xs with
  | nil => rfl
  | cons y ys ih =>
    have hy : y ∈ s := h y (List.mem_cons_self y ys)
    have : setAdd s y = s := by simp [setAdd, hy]
    unfold addAllStr
    rw [List.foldl_cons, this]
    exact ih fun x hx => h x (List.mem_cons_of_mem y hx)

/-- C8: the in-memory exclusion set is monotonic under
`updateCompanyExclusions` — once an id is in a batch, `isCompanyExcluded`
answers `true` after that call and after any sequence of further calls —
and adding only already-present ids leaves the set (hence its membership)
unchanged. -/
theorem exclusion_set_monotonic_and_idempotent :
    (∀ (s : List JStr) (ids : List JsVal) (id : JsVal) (w u : Except JStr Unit)
        (batches : List (List JsVal)), id ∈ ids →
      isCompanyExcluded
        (applyUpdates (updateCompanyExclusions s ids w u).1 batches) id = true) ∧
      (∀ (s : List JStr) (ids : List JsVal) (w u : Except JStr Unit),
        (∀ i ∈ ids, isCompanyExcluded s i = true) →
        (updateCompanyExclusions s ids w u).1 = s) := by
  constructor
  · intro s ids id w u batches hid
    have h1 : jsToString id ∈ addAllStr s (ids.map jsToString) :=
      mem_addAllStr_of_mem_arg (List.mem_map_of_mem jsToString hid)
    have h2 : (updateCompanyExclusions s ids w u).1 = addAllStr s (ids.map jsToString) := by
      unfold updateCompanyExclusions
      cases w <;> cases u <;> rfl
    rw [h2]
    exact decide_eq_true (mem_applyUpdates_of_mem batches h1)
  · intro s ids w u h
    have h2 : (updateCompanyExclusions s ids w u).1 = addAllStr s (ids.map jsToString) := by
      unfold updateCompanyExclusions
      cases w <;> cases u <;> rfl
    rw [h2]
    refine addAllStr_eq_self fun x hx => ?_
    rcases List.mem_map.mp hx with ⟨i, hi, rfl⟩
    exact of_decide_eq_true (h i hi)

/-- Witness for C8 at concrete inputs: id 5 stays excluded through a later
batch, and re-adding the already-present id 5 leaves the set unchanged. -/
theorem exclusion_set_monotonic_and_idempotent_witness :
    isCompanyExcluded
        (applyUpdates
          (updateCompanyExclusions [] [JsVal.num 5] (Except.ok ()) (Except.ok ())).1
          [[JsVal.str ['7']]])
        (JsVal.num 5) = true ∧
      (updateCompanyExclusions [['5']] [JsVal.num 5] (Except.ok ()) (Except.ok ())).1 =
        [['5']] :=
  ⟨exclusion_set_monotonic_and_idempotent.1 [] [JsVal.num 5] (JsVal.num 5)
      (Except.ok ()) (Except.ok ()) [[JsVal.str ['7']]] (by decide),
    exclusion_set_monotonic_and_idempotent.2 [['5']] [JsVal.num 5]
      (Except.ok ()) (Except.ok ()) (by decide)⟩

/-- C10: ids are normalised through `.toString()` on both the write path
(`updateCompanyExclusions`) and the read path (`isCompanyExcluded`), so after
adding `x` the query answers `true` for `x` itself and for every value `y`
with the same string form — numeric and string spellings of an id are
interchangeable. -/
theorem exclusion_ids_normalised_by_toString (s : List JStr) (x : JsVal)
    (w u : Except JStr Unit) (y : JsVal) (hy : jsToString y = jsToString x) :
    isCompanyExcluded (updateCompanyExclusions s [x] w u).1 x = true ∧
      isCompanyExcluded (updateCompanyExclusions s [x] w u).1 y = true := by
  have h2 : (updateCompanyExclusions s [x] w u).1 = addAllStr s [jsToString x] := by
    unfold updateCompanyExclusions
    cases w <;> cases u <;> rfl
  have hx : jsToString x ∈ addAllStr s [jsToString x] :=
    mem_addAllStr_of_mem_arg (List.mem_singleton.mpr rfl)
  constructor
  · rw [h2]
    exact decide_eq_true hx
  · rw [h2]
    unfold isCompanyExcluded
    rw [hy]
    exact decide_eq_true hx

/-- Witness for C10: the number 123 and the string `123` are the same
exclusion-set member. -/
theorem exclusion_ids_normalised_by_toString_witness :
    isCompanyExcluded
        (updateCompanyExclusions [] [JsVal.num 123] (Except.ok ()) (Except.ok ())).1
        (JsVal.num 123) = true ∧
      isCompanyExcluded
        (updateCompanyExclusions [] [JsVal.num 123] (Except.ok ()) (Except.ok ())).1
        (JsVal.str ['1', '2', '3']) = true :=
  exclusion_ids_normalised_by_toString [] (JsVal.num 123) (Except.ok ()) (Except.ok ())
    (JsVal.str ['1', '2', '3']) (by decide)

/-- A company as consumed by the contact loop: its id and name (the fields
`processCompaniesContacts` reads when building contact rows). -/
structure Company where
  id : JsVal
  name : JStr
deriving DecidableEq

/-- A contact returned by `searchContacts`: the fields the enrichment loop
reads.  Absent JSON fields are `none`. -/
structure Contact where
  id : JsVal
  firstName : Option JStr
  lastName : Option JStr
  jobTitle : Option JStr
deriving DecidableEq

/-- The enrichment record extracted by
`enrichedContact.data?.result?.[0]?.data?.[0]` restricted to the three
contact-channel fields the acceptance test reads.  An absent field is
`none`. -/
structure EnrichedData where
  email : Option JStr
  phone : Option JStr
  mobilePhone : Option JStr
deriving DecidableEq

/-- JS truthiness of an optional string field: present and non-empty. -/
def truthyStr (o : Option JStr) : Bool :=
  match o with
  | some s => !s.isEmpty
  | none => false

/-- The contact row pushed into `processedContacts`
(`debug_contact_search.js` concatenated `leadProcessor.js` lines 395-407). -/
structure ContactData where
  ziId : JStr
  companyZiId : JStr
  companyName : JStr
  name : JStr
  jobTitle : JStr
  email : JStr
  phone : JStr
  mobilePhone : JStr
  state : JStr
  metroRegion : JStr
  naicsCode : JStr
deriving DecidableEq

/-- Builds one accepted contact row from the raw contact and its enrichment
record, mirroring the object literal in the source (`||` fallbacks become
`Option.getD` / emptiness tests). -/
def mkContactData (company : Company) (c : Contact) (d : EnrichedData)
    (jobTitle location naicsCode : JStr) : ContactData :=
  let isMetro := isMetroRegion location
  { ziId := jsToString c.id
    companyZiId := jsToString company.id
    companyName := company.name
    name := trim ((c.firstName.getD []) ++ [spaceChar] ++ (c.lastName.getD []))
    jobTitle := if truthyStr c.jobTitle then c.jobTitle.getD [] else jobTitle
    email := d.email.getD []
    phone := d.phone.getD []
    mobilePhone := d.mobilePhone.getD []
    state := if isMetro then [] else location
    metroRegion := if isMetro then location else []
    naicsCode := naicsCode }

/-- The inner `for (const contact of contactResults.data)` loop of
`processCompaniesContacts` (`leadProcessor.js` lines 367-417): enrich each
contact (the enrichment call is an oracle; a thrown enrichment error is
caught, logged and the contact skipped), extract
`data?.result?.[0]?.data?.[0]`, and push a row only when that record exists
and `email || phone || mobilePhone` is truthy. -/
def processContactsForCompany (company : Company) (jobTitle location naicsCode : JStr)
    (enrich : Contact → Except JStr (Option EnrichedData)) :
    List Contact → List ContactData
  | [] => []
  | c :: rest =>
    match enrich c with
    | Except.error _ => processContactsForCompany company jobTitle location naicsCode enrich rest
    | Except.ok od =>
      match od with
      | none => processContactsForCompany company jobTitle location naicsCode enrich rest
      | some d =>
        if truthyStr d.email || truthyStr d.phone || truthyStr d.mobilePhone then
          mkContactData company c d jobTitle location naicsCode ::
            processContactsForCompany company jobTitle location naicsCode enrich rest
        else processContactsForCompany company jobTitle location naicsCode enrich rest

/-- C6: a contact is added to the combination's output list iff its
enrichment record exists and at least one of email, phone, mobilePhone is
populated (an OR): the loop equals a filterMap with exactly that guard; in
particular a contact whose record has only `mobilePhone` populated is
accepted, and one with none of the three populated (or no record at all) is
rejected. -/
theorem contact_acceptance_iff_any_channel :
    (∀ (company : Company) (jobTitle location naicsCode : JStr)
        (enrich : Contact → Except JStr (Option EnrichedData)) (contacts : List Contact),
      processContactsForCompany company jobTitle location naicsCode enrich contacts =
        contacts.filterMap fun c =>
          match enrich c with
          | Except.ok (some d) =>
            if truthyStr d.email || truthyStr d.phone || truthyStr d.mobilePhone then
              some (mkContactData company c d jobTitle location naicsCode)
            else none
          | Except.ok none => none
          | Except.error _ => none) ∧
      (∀ (company : Company) (jobTitle location naicsCode : JStr) (c : Contact),
        (processContactsForCompany company jobTitle location naicsCode
          (fun _ => Except.ok (some ⟨none, none, some ['5']⟩)) [c]).length = 1) ∧
      (∀ (company : Company) (jobTitle location naicsCode : JStr) (c : Contact),
        processContactsForCompany company jobTitle location naicsCode
          (fun _ => Except.ok (some ⟨none, none, none⟩)) [c] = []) ∧
      (∀ (company : Company) (jobTitle location naicsCode : JStr) (c : Contact),
        processContactsForCompany company jobTitle location naicsCode
          (fun _ => Except.ok none) [c] = []) := by
  refine ⟨?_, ?_, ?_, ?_⟩
  · intro company jobTitle location naicsCode enrich contacts
    induction contacts with
    | nil => rfl
    | cons c rest ih =>
      rw [List.filterMap_cons]
      cases he : enrich c with
      | error e => simpa [processContactsForCompany, he] using ih
      | ok od =>
        cases od with
        | none => simpa [processContactsForCompany, he] using ih
        | some d =>
          by_cases hd : (truthyStr d.email || truthyStr d.phone || truthyStr d.mobilePhone) = true
          · simpa [processContactsForCompany, he, hd] using ih
          · rw [Bool.not_eq_true] at hd
            simpa [processContactsForCompany, he, hd] using ih
  · intro company jobTitle location naicsCode c
    rfl
  · intro company jobTitle location naicsCode c
    rfl
  · intro company jobTitle location naicsCode c
    rfl

/-- The `ZoomInfoService` token-cache state (`zoomInfoService.js` lines
11-19): the in-memory token and its expiry, the durable token file, the
model clock (`Date.now()` in milliseconds, held fixed across one call
sequence), the number of `refreshToken` handshakes performed, and the
number of HTTP attempts made (used to index the API oracle). -/
structure ZIState where
  currentToken : Option JStr
  tokenExpiresAt : Option Nat
  tokenFile : Option (JStr × Nat)
  now : Nat
  freshCount : Nat
  attempts : Nat
deriving DecidableEq

/-- Provider-stated token lifetime: one hour in milliseconds
(`zoomInfoService.js` line 67). -/
def tokenLifetimeMs : Nat := 60 * 60 * 1000

/-- `ZoomInfoService.refreshToken` (`zoomInfoService.js` lines 55-89): the
authentication handshake is an oracle indexed by how many handshakes have
happened; on success the token is stored in memory and in the token file
with expiry `now + 1h`; on failure the error propagates (the source wraps
the message, which the model passes through) and the state is unchanged. -/
def refreshToken (auth : Nat → Except JStr JStr) (st : ZIState) :
    Except JStr (JStr × ZIState) :=
  match auth st.freshCount with
  | Except.error e => Except.error e
  | Except.ok tok =>
    let exp := st.now + tokenLifetimeMs
    Except.ok (tok,
      { st with
          currentToken := some tok
          tokenExpiresAt := some exp
          tokenFile := some (tok, exp)
          freshCount := st.freshCount + 1 })

/-- The token-file fallback inside `getJwtToken` (`zoomInfoService.js` lines
33-44): an unexpired durable token is loaded into memory and returned; a
missing (or expired) file falls through to `refreshToken`. -/
def getJwtTokenFromFile (auth : Nat → Except JStr JStr) (st : ZIState) :
    Except JStr (JStr × ZIState) :=
  match st.tokenFile with
  | some (t, exp) =>
    if st.now < exp then
      Except.ok (t, { st with currentToken := some t, tokenExpiresAt := some exp })
    else refreshToken auth st
  | none => refreshToken auth st

/-- `ZoomInfoService.getJwtToken` (`zoomInfoService.js` lines 25-53): return
the in-memory token if present and locally unexpired; else try the token
file; else renew. -/
def getJwtToken (auth : Nat → Except JStr JStr) (st : ZIState) :
    Except JStr (JStr × ZIState) :=
  match st.currentToken, st.tokenExpiresAt with
  | some t, some exp =>
    if st.now < exp then Except.ok (t, st)
    else getJwtTokenFromFile auth st
  | _, _ => getJwtTokenFromFile auth st

/-- The outcome of one HTTP POST as seen by `makeAPICall`: a success body or
an HTTP status (with the optional retry-after header for 429). -/
inductive ApiResp where
  | ok (body : JStr)
  | http (status : Nat) (retryAfterSec : Option Nat)
deriving DecidableEq

/-- The overall result of `makeAPICall`: the response body, or the thrown
`Error` summarised by the HTTP status it reports (`none` stands for the
source's literal `unknown`, e.g. when `getJwtToken` itself threw). -/
inductive CallResult where
  | ok (body : JStr)
  | fail (status : Option Nat) (msg : JStr)
deriving DecidableEq

/-- The message of the final `throw` in `makeAPICall`,
`OPERATION failed: STATUS - MESSAGE`, reduced to its status digits — the
part the pagination loop's error classification inspects. -/
def apiErrMsg (status : Nat) : JStr := natToChars status

/-- Fuel-exhaustion sentinel; unreachable whenever `makeAPICall` is run with
fuel exceeding `maxRetries - retryCount`, since every recursive call
increments `retryCount` and is guarded by `retryCount < maxRetries`. -/
def fuelOutMsg : JStr := ['f', 'u', 'e', 'l']

/-- `ZoomInfoService.makeAPICall` (`zoomInfoService.js` lines 103-149).
`api` is the remote endpoint as an oracle from (attempt index, attached
bearer token) to the HTTP outcome.  On 401 with retries left the token
*file* is deleted and the call recurses; on 429 with retries left the call
sleeps (not modelled) and recurses; otherwise the error is thrown with its
status.  Returns the result, the final state, and the list of bearer tokens
attached, in order. -/
def makeAPICall (auth : Nat → Except JStr JStr) (api : Nat → JStr → ApiResp)
    (maxRetries : Nat) : Nat → ZIState → Nat → CallResult × ZIState × List JStr
  | 0, st, _ => (CallResult.fail none fuelOutMsg, st, [])
  | Nat.succ fuel, st, retryCount =>
    match getJwtToken auth st with
    | Except.error e => (CallResult.fail none e, st, [])
    | Except.ok (tok, st1) =>
      let st2 := { st1 with attempts := st1.attempts + 1 }
      match api st1.attempts tok with
      | ApiResp.ok body => (CallResult.ok body, st2, [tok])
      | ApiResp.http status _retryAfter =>
        if status = 401 ∧ retryCount < maxRetries then
          let st3 := { st2 with tokenFile := none }
          let r := makeAPICall auth api maxRetries fuel st3 (retryCount + 1)
          (r.1, r.2.1, tok :: r.2.2)
        else if status = 429 ∧ retryCount < maxRetries then
          let r := makeAPICall auth api maxRetries fuel st2 (retryCount + 1)
          (r.1, r.2.1, tok :: r.2.2)
        else (CallResult.fail (some status) (apiErrMsg status), st2, [tok])

/-- A remote endpoint that rejects every attempt with HTTP 401. -/
def api401 : Nat → JStr → ApiResp := fun _ _ => ApiResp.http 401 none

/-- An authentication oracle that always succeeds, handing out the
distinguishable fresh tokens `f0`, `f1`, ... -/
def authFresh : Nat → Except JStr JStr := fun k => Except.ok ('f' :: natToChars k)

/-- A cache state holding the locally-unexpired (but server-rejected) token
`t0`, in memory and on disk. -/
def st401 : ZIState :=
  { currentToken := some ['t', '0']
    tokenExpiresAt := some 100
    tokenFile := some (['t', '0'], 100)
    now := 50
    freshCount := 0
    attempts := 0 }

/-- C3 counterexample: with a locally-unexpired in-memory token and an
endpoint that answers 401, `makeAPICall` (maxRetries 3) never renews —
`freshCount` stays 0 — and the retry re-attaches exactly the token the
server just rejected, so the claim that a 401 retry obtains a fresh
credential via renewal and never reattaches the rejected token is false. -/
theorem retry_after_401_reuses_rejected_token :
    (0 < (makeAPICall authFresh api401 3 4 st401 0).2.1.freshCount ∧
        (makeAPICall authFresh api401 3 4 st401 0).2.2.get? 1 ≠
          (makeAPICall authFresh api401 3 4 st401 0).2.2.get? 0) = False :=
  eq_false (by decide)

/-- An in-memory token is valid for this state: present with an expiry the
local clock has not reached. -/
def memTokenValid (st : ZIState) (t0 : JStr) : Prop :=
  st.currentToken = some t0 ∧ ∃ e0, st.tokenExpiresAt = some e0 ∧ st.now < e0

lemma getJwtToken_of_memValid {st : ZIState} {t0 : JStr} (auth : Nat → Except JStr JStr)
    (h : memTokenValid st t0) : getJwtToken auth st = Except.ok (t0, st) := by
  rcases h with ⟨h1, e0, h2, h3⟩
  unfold getJwtToken
  rw [h1, h2]
  simp [h3]

lemma makeAPICall_api401_memValid (auth : Nat → Except JStr JStr) (maxRetries : Nat)
    (t0 : JStr) :
    ∀ (k retryCount : Nat) (st : ZIState) (fuel : Nat), memTokenValid st t0 →
      retryCount + k = maxRetries → k < fuel →
      (makeAPICall auth api401 maxRetries fuel st retryCount).1 =
          CallResult.fail (some 401) (apiErrMsg 401) ∧
        (makeAPICall auth api401 maxRetries fuel st retryCount).2.2 =
          List.replicate (k + 1) t0 ∧
        (makeAPICall auth api401 maxRetries fuel st retryCount).2.1.freshCount =
          st.freshCount := by
  intro k
  induction k with
  | zero =>
    intro retryCount st fuel hmem hsum hfuel
    obtain ⟨f, rfl⟩ : ∃ f, fuel = f + 1 := ⟨fuel - 1, by omega⟩
    have hlt : ¬retryCount < maxRetries := by omega
    unfold makeAPICall
    rw [getJwtToken_of_memValid auth hmem]
    simp [api401, hlt]
  | succ k ih =>
    intro retryCount st fuel hmem hsum hfuel
    obtain ⟨f, rfl⟩ : ∃ f, fuel = f + 1 := ⟨fuel - 1, by omega⟩
    have hlt : retryCount < maxRetries := by omega
    have hmem3 : memTokenValid
        { st with attempts := st.attempts + 1, tokenFile := none } t0 := by
      rcases hmem with ⟨h1, e0, h2, h3⟩
      exact ⟨h1, e0, h2, h3⟩
    have ih3 := ih (retryCount + 1)
      { st with attempts := st.attempts + 1, tokenFile := none } f hmem3 (by omega)
      (by omega)
    unfold makeAPICall
    rw [getJwtToken_of_memValid auth hmem]
    simp only [api401, hlt, and_true, if_pos rfl]
    refine ⟨ih3.1, ?_, ih3.2.2⟩
    rw [List.replicate_succ]
    exact congrArg (t0 :: ·) ih3.2.1

/-- C3 amended: on HTTP 401 with retries left, `makeAPICall` deletes only
the durable token file and retries; the in-memory token is not invalidated,
so a locally-unexpired in-memory token — the one the server just rejected —
is reattached on every retry and no renewal happens (`freshCount` is
unchanged); when the in-memory cache and token file are empty, the first
attempt renews once and the retries then reuse that same fresh token.  In
both cases, once `maxRetries` retries are exhausted the 401 error is
surfaced to the caller. -/
theorem retry_after_401_behaviour (maxRetries : Nat) (auth : Nat → Except JStr JStr)
    (t0 : JStr) (st : ZIState) :
    (memTokenValid st t0 →
      (makeAPICall auth api401 maxRetries (maxRetries + 1) st 0).1 =
          CallResult.fail (some 401) (apiErrMsg 401) ∧
        (makeAPICall auth api401 maxRetries (maxRetries + 1) st 0).2.2 =
          List.replicate (maxRetries + 1) t0 ∧
        (makeAPICall auth api401 maxRetries (maxRetries + 1) st 0).2.1.freshCount =
          st.freshCount) ∧
      (st.currentToken = none → st.tokenFile = none → auth st.freshCount = Except.ok t0 →
        (makeAPICall auth api401 maxRetries (maxRetries + 2) st 0).1 =
            CallResult.fail (some 401) (apiErrMsg 401) ∧
          (makeAPICall auth api401 maxRetries (maxRetries + 2) st 0).2.2 =
            List.replicate (maxRetries + 1) t0 ∧
          (makeAPICall auth api401 maxRetries (maxRetries + 2) st 0).2.1.freshCount =
            st.freshCount + 1) := by
  constructor
  · intro hmem
    exact makeAPICall_api401_memValid auth maxRetries t0 maxRetries 0 st (maxRetries + 1)
      hmem (by omega) (by omega)
  · intro hcur hfile hauth
    have hget : getJwtToken auth st =
        Except.ok (t0,
          { st with
              currentToken := some t0
              tokenExpiresAt := some (st.now + tokenLifetimeMs)
              tokenFile := some (t0, st.now + tokenLifetimeMs)
              freshCount := st.freshCount + 1 }) := by
      unfold getJwtToken
      rw [hcur]
      unfold getJwtTokenFromFile
      rw [hfile]
      unfold refreshToken
      rw [hauth]
    cases maxRetries with
    | zero =>
      unfold makeAPICall
      rw [hget]
      simp [api401]
    | succ m =>
      have hmem : memTokenValid
          { st with
              currentToken := some t0
              tokenExpiresAt := some (st.now + tokenLifetimeMs)
              tokenFile := (none : Option (JStr × Nat))
              freshCount := st.freshCount + 1
              attempts := st.attempts + 1 } t0 := by
        refine ⟨rfl, st.now + tokenLifetimeMs, rfl, ?_⟩
        simp [tokenLifetimeMs]
      have hrec := makeAPICall_api401_memValid auth (m + 1) t0 m 1
        { st with
            currentToken := some t0
            tokenExpiresAt := some (st.now + tokenLifetimeMs)
            tokenFile := (none : Option (JStr × Nat))
            freshCount := st.freshCount + 1
            attempts := st.attempts + 1 } (m + 2) hmem (by omega) (by omega)
      show _ ∧ _ ∧ _
      unfold makeAPICall
      rw [hget]
      have hlt : (0 : Nat) < m + 1 := by omega
      simp only [api401, hlt, and_true, if_pos rfl]
      refine ⟨hrec.1, ?_, hrec.2.2⟩
      rw [List.replicate_succ]
      exact congrArg (t0 :: ·) hrec.2.1

/-- Witness for C3 amended at `maxRetries = 2`: a memory-valid rejected
token is attached three times with no renewal, and with an empty cache a
single renewal's token is likewise attached three times. -/
theorem retry_after_401_behaviour_witness :
    (memTokenValid st401 ['t', '0'] ∧
        (makeAPICall authFresh api401 2 3 st401 0).2.2 =
          List.replicate 3 ['t', '0']) ∧
      ((makeAPICall authFresh api401 2 4
          { st401 with currentToken := none, tokenFile := none } 0).2.2 =
        List.replicate 3 ['f', '0']) :=
  ⟨⟨⟨rfl, 100, rfl, by decide⟩,
      ((retry_after_401_behaviour 2 authFresh ['t', '0'] st401).1
        ⟨rfl, 100, rfl, by decide⟩).2.1⟩,
    ((retry_after_401_behaviour 2 authFresh ['f', '0']
        { st401 with currentToken := none, tokenFile := none }).2
      rfl rfl rfl).2.1⟩

/-- One company-search request as built by `processCombination`
(`leadProcessor.js` lines 227-233): the metro/state classification of the
location, the NAICS filter, the page size `rpp` and the page number. -/
structure CompanyReq where
  isMetro : Bool
  location : JStr
  naicsCodes : JStr
  rpp : Nat
  page : Nat
deriving DecidableEq

/-- The outcome of one `searchCompanies` call as the pagination loop sees
it: a page of company ids with the reported `totalCount`, or a thrown
error summarised by its message. -/
inductive CompanySearchResult where
  | ok (data : List JsVal) (totalCount : Nat)
  | err (msg : JStr)
deriving DecidableEq

/-- The error classification at `leadProcessor.js` line 290:
`message.includes('400') && (message.includes('page number') ||
message.includes('greater than'))`. -/
def pageTooHighMsg (msg : JStr) : Bool :=
  containsSub msg ['4', '0', '0'] &&
    (containsSub msg
        ['p', 'a', 'g', 'e', spaceChar, 'n', 'u', 'm', 'b', 'e', 'r'] ||
      containsSub msg
        ['g', 'r', 'e', 'a', 't', 'e', 'r', spaceChar, 't', 'h', 'a', 'n'])

/-- `stateManager.updateProgress({currentPage: p})`. -/
def setCurrentPage (sm : SMState) (p : Nat) : SMState :=
  { sm with currentPage := p }

/-- `stateManager.markCompleted` restricted to the modelled fields: sets the
`completed` flag (the source also stamps `completedTime` and saves). -/
def markCompleted (sm : SMState) : SMState :=
  { sm with completed := true }

/-- The local state of the `while (hasMorePages)` loop in
`processCombination`: the current page, the consecutive-empty-page counter,
the exclusion set, the state-manager record, and the list of company-search
requests issued so far (recorded so theorems can inspect the pages
requested). -/
structure PagState where
  page : Nat
  consecutiveEmptyPages : Nat
  excl : List JStr
  sm : SMState
  requests : List CompanyReq
deriving DecidableEq

/-- The `while (hasMorePages)` pagination loop of `processCombination`
(`leadProcessor.js` lines 224-303), on explicit fuel (`none` = fuel ran
out).  `resp` is the remote endpoint as an oracle from the request to its
outcome.  Per iteration, mirroring the source: build the search params and
issue the request; an empty page stops; otherwise companies already in the
exclusion set are filtered out; a page with new companies resets the empty
counter, adds the new ids to the exclusion set (contact processing affects
neither the loop control nor these fields and is modelled separately by
`processContactsForCompany`); a page without new companies increments the
counter and stops at 3; then `currentPage` is persisted as `page + 1` and
the loop stops when `page >= Math.ceil(totalCount / batchSize)`.  A thrown
error classified as page-too-high stops; any other error advances the page
and stops once the page exceeds the absolute ceiling of 50 — with no
persisted-page update on the error path. -/
def pagLoop (B : Nat) (resp : CompanyReq → CompanySearchResult) (location naics : JStr) :
    Nat → PagState → Option PagState
  | 0, _ => none
  | Nat.succ fuel, st =>
    let req : CompanyReq :=
      { isMetro := isMetroRegion location
        location := location
        naicsCodes := naics
        rpp := B
        page := st.page }
    let st1 : PagState := { st with requests := st.requests ++ [req] }
    match resp req with
    | CompanySearchResult.err msg =>
      if pageTooHighMsg msg then some st1
      else
        if 50 < st1.page + 1 then some { st1 with page := st1.page + 1 }
        else pagLoop B resp location naics fuel { st1 with page := st1.page + 1 }
    | CompanySearchResult.ok data totalCount =>
      if data.isEmpty then some st1
      else
        let newCompanies := data.filter fun c => !isCompanyExcluded st1.excl c
        if newCompanies.isEmpty then
          if 3 ≤ st1.consecutiveEmptyPages + 1 then
            some { st1 with consecutiveEmptyPages := st1.consecutiveEmptyPages + 1 }
          else
            let st2 : PagState :=
              { st1 with
                  consecutiveEmptyPages := st1.consecutiveEmptyPages + 1
                  sm := setCurrentPage st1.sm (st1.page + 1) }
            if (totalCount + B - 1) / B ≤ st2.page then some st2
            else pagLoop B resp location naics fuel { st2 with page := st2.page + 1 }
        else
          let st2 : PagState :=
            { st1 with
                consecutiveEmptyPages := 0
                excl := addAllStr st1.excl (newCompanies.map jsToString)
                sm := setCurrentPage st1.sm (st1.page + 1) }
          if (totalCount + B - 1) / B ≤ st2.page then some st2
          else pagLoop B resp location naics fuel { st2 with page := st2.page + 1 }

/-- `LeadProcessor.processCombination` (`leadProcessor.js` lines 213-317)
reduced to its pagination effect: start from
`state.currentPage || 1`, run the page loop, and afterwards persist
`currentPage := 1` for the next combination.  Returns the exclusion set,
the state-manager record and the accumulated request list (`saveResults`,
which only serialises the collected rows, is outside the model). -/
def processCombination (B : Nat) (resp : CompanyReq → CompanySearchResult) (fuel : Nat)
    (location naics _jobTitle : JStr) (excl : List JStr) (sm : SMState)
    (reqs : List CompanyReq) : Option (List JStr × SMState × List CompanyReq) :=
  let page0 := if sm.currentPage = 0 then 1 else sm.currentPage
  match pagLoop B resp location naics fuel
      { page := page0, consecutiveEmptyPages := 0, excl := excl, sm := sm,
        requests := reqs } with
  | none => none
  | some st => some (st.excl, setCurrentPage st.sm 1, st.requests)

/-- The `for (combinationIndex = startingIndex; ...)` loop of
`processAllCombinations` (`leadProcessor.js` lines 190-207) over the
remaining `(index, combination)` pairs: before each combination the driver
persists `{currentCombinationIndex: index, currentPage: 1}`, then runs the
pipeline; after the last combination `markCompleted` runs. -/
def runCombos (B : Nat) (resp : CompanyReq → CompanySearchResult) (fuel : Nat) :
    List (Nat × Combination) → List JStr → SMState → List CompanyReq →
      Option (SMState × List JStr × List CompanyReq)
  | [], excl, sm, reqs => some (markCompleted sm, excl, reqs)
  | (idx, c) :: rest, excl, sm, reqs =>
    let sm1 : SMState := { sm with currentCombinationIndex := idx, currentPage := 1 }
    match processCombination B resp fuel c.location c.naicsCode c.jobTitle excl sm1 reqs with
    | none => none
    | some (excl2, sm2, reqs2) => runCombos B resp fuel rest excl2 sm2 reqs2

/-- `LeadProcessor.processAllCombinations` (`leadProcessor.js` lines
173-211): if the loaded state is already `completed`, return immediately;
otherwise iterate the combinations from
`state.currentCombinationIndex || 0` (`|| 0` is the identity on the
modelled `Nat` field).  Returns the final state-manager record, exclusion
set, and every company-search request issued. -/
def processAllCombinations (B : Nat) (resp : CompanyReq → CompanySearchResult)
    (fuel : Nat) (combos : List Combination) (excl : List JStr) (sm : SMState) :
    Option (SMState × List JStr × List CompanyReq) :=
  if sm.completed then some (sm, excl, [])
  else runCombos B resp fuel (combos.enum.drop sm.currentCombinationIndex) excl sm []

/-- A remote endpoint whose every page is empty (`data: [], totalCount: 0`). -/
def respEmptyPage : CompanyReq → CompanySearchResult :=
  fun _ => CompanySearchResult.ok [] 0

/-- A fresh driver state as persisted mid-run: resume at combination 0 with
persisted page 2, not completed. -/
def smResumePage2 : SMState := ⟨0, 2, 0, 0, false, none⟩

/-- A sample combination (Colorado, one NAICS code, one title). -/
def comboEx : Combination := ⟨0, ['C', 'O'], ['2', '3', '6'], ['R'], ['P', 'M']⟩

/-- C9: when the loaded state already has `completed = true`,
`processAllCombinations` returns immediately: no company-search request is
issued and the `JobProgress` record and the exclusion set are returned
unchanged. -/
theorem completed_run_is_noop (B : Nat) (resp : CompanyReq → CompanySearchResult)
    (fuel : Nat) (combos : List Combination) (excl : List JStr) (sm : SMState)
    (h : sm.completed = true) :
    processAllCombinations B resp fuel combos excl sm = some (sm, excl, []) := by
  simp [processAllCombinations, h]

/-- Witness for C9 at a concrete completed state. -/
theorem completed_run_is_noop_witness :
    ({ smResumePage2 with completed := true } : SMState).completed = true ∧
      processAllCombinations 50 respEmptyPage 5 [comboEx] [['9']]
          { smResumePage2 with completed := true } =
        some ({ smResumePage2 with completed := true }, [['9']], []) :=
  ⟨rfl, completed_run_is_noop 50 respEmptyPage 5 [comboEx] [['9']]
    { smResumePage2 with completed := true } rfl⟩

/-- C1 counterexample: resuming with persisted
`{currentCombinationIndex: 0, currentPage: 2}`, the first company-search
request of the resumed combination is not made with the persisted page 2 —
the driver overwrites `currentPage` with 1 before invoking the pipeline. -/
theorem resume_ignores_persisted_page :
    ((((processAllCombinations 50 respEmptyPage 5 [comboEx] [] smResumePage2).getD
          (smResumePage2, [], [])).2.2.head?.map CompanyReq.page) = some 2) = False :=
  eq_false (by decide)

lemma pagLoop_requests_extend (B : Nat) (resp : CompanyReq → CompanySearchResult)
    (location naics : JStr) :
    ∀ (fuel : Nat) (st st2 : PagState),
      pagLoop B resp location naics fuel st = some st2 →
      ∃ t, st2.requests = st.requests ++ t := by
  intro fuel
  induction fuel with
  | zero => intro st st2 h; simp [pagLoop] at h
  | succ f ih =>
    intro st st2 h
    simp only [pagLoop] at h
    split at h
    · split at h
      · exact ⟨_, (congrArg PagState.requests (Option.some.inj h)).symm⟩
      · split at h
        · exact ⟨_, (congrArg PagState.requests (Option.some.inj h)).symm⟩
        · rcases ih _ _ h with ⟨t, ht⟩
          exact ⟨_, ht.trans (List.append_assoc _ _ _)⟩
    · split at h
      · exact ⟨_, (congrArg PagState.requests (Option.some.inj h)).symm⟩
      · split at h
        · split at h
          · exact ⟨_, (congrArg PagState.requests (Option.some.inj h)).symm⟩
          · split at h
            · exact ⟨_, (congrArg PagState.requests (Option.some.inj h)).symm⟩
            · rcases ih _ _ h with ⟨t, ht⟩
              exact ⟨_, ht.trans (List.append_assoc _ _ _)⟩
        · split at h
          · exact ⟨_, (congrArg PagState.requests (Option.some.inj h)).symm⟩
          · rcases ih _ _ h with ⟨t, ht⟩
            exact ⟨_, ht.trans (List.append_assoc _ _ _)⟩

lemma pagLoop_first_request (B : Nat) (resp : CompanyReq → CompanySearchResult)
    (location naics : JStr) (fuel : Nat) (st st2 : PagState)
    (h : pagLoop B resp location naics fuel st = some st2) :
    ∃ t, st2.requests =
      st.requests ++
        ({ isMetro := isMetroRegion location, location := location, naicsCodes := naics,
            rpp := B, page := st.page } : CompanyReq) :: t := by
  cases fuel with
  | zero => simp [pagLoop] at h
  | succ f =>
    simp only [pagLoop] at h
    split at h
    · split at h
      · exact ⟨[], (congrArg PagState.requests (Option.some.inj h)).symm⟩
      · split at h
        · exact ⟨[], (congrArg PagState.requests (Option.some.inj h)).symm⟩
        · rcases pagLoop_requests_extend B resp location naics f _ _ h with ⟨t, ht⟩
          exact ⟨t, ht.trans (List.append_assoc _ _ _)⟩
    · split at h
      · exact ⟨[], (congrArg PagState.requests (Option.some.inj h)).symm⟩
      · split at h
        · split at h
          · exact ⟨[], (congrArg PagState.requests (Option.some.inj h)).symm⟩
          · split at h
            · exact ⟨[], (congrArg PagState.requests (Option.some.inj h)).symm⟩
            · rcases pagLoop_requests_extend B resp location naics f _ _ h with ⟨t, ht⟩
              exact ⟨t, ht.trans (List.append_assoc _ _ _)⟩
        · split at h
          · exact ⟨[], (congrArg PagState.requests (Option.some.inj h)).symm⟩
          · rcases pagLoop_requests_extend B resp location naics f _ _ h with ⟨t, ht⟩
            exact ⟨t, ht.trans (List.append_assoc _ _ _)⟩

lemma processCombination_first_request (B : Nat) (resp : CompanyReq → CompanySearchResult)
    (fuel : Nat) (location naics jt : JStr) (excl : List JStr) (sm : SMState)
    (reqs : List CompanyReq) (out : List JStr × SMState × List CompanyReq)
    (h : processCombination B resp fuel location naics jt excl sm reqs = some out) :
    ∃ t, out.2.2 =
      reqs ++
        ({ isMetro := isMetroRegion location, location := location, naicsCodes := naics,
            rpp := B,
            page := if sm.currentPage = 0 then 1 else sm.currentPage } : CompanyReq) :: t := by
  simp only [processCombination] at h
  set p0 := if sm.currentPage = 0 then 1 else sm.currentPage with hp0
  split at h
  · exact absurd h (by simp)
  · rename_i stF hpag
    rcases pagLoop_first_request B resp location naics fuel _ _ hpag with ⟨t, ht⟩
    refine ⟨t, ?_⟩
    rw [← Option.some.inj h]
    simpa using ht

lemma runCombos_requests_extend (B : Nat) (resp : CompanyReq → CompanySearchResult)
    (fuel : Nat) :
    ∀ (l : List (Nat × Combination)) (excl : List JStr) (sm : SMState)
      (reqs : List CompanyReq) (out : SMState × List JStr × List CompanyReq),
      runCombos B resp fuel l excl sm reqs = some out →
      ∃ t, out.2.2 = reqs ++ t := by
  intro l
  induction l with
  | nil =>
    intro excl sm reqs out h
    simp only [runCombos] at h
    exact ⟨[], by rw [← Option.some.inj h]; simp⟩
  | cons p rest ih =>
    intro excl sm reqs out h
    obtain ⟨idx, c⟩ := p
    simp only [runCombos] at h
    split at h
    · exact absurd h (by simp)
    · rename_i excl2 sm2 reqs2 hp
      rcases ih _ _ _ _ h with ⟨t, ht⟩
      rcases processCombination_first_request B resp fuel c.location c.naicsCode c.jobTitle
        excl _ reqs (excl2, sm2, reqs2) hp with ⟨u, hu⟩
      dsimp only at hu
      rw [hu] at ht
      exact ⟨_, ht.trans (List.append_assoc _ _ _)⟩

/-- C1 amended: on resume the driver first persists
`{currentCombinationIndex: k, currentPage: 1}` — overwriting the persisted
page — so the pipeline's first company-search request for combination `k`
is made with page 1, whatever page was persisted. -/
theorem resumed_run_first_request_page_one (B : Nat)
    (resp : CompanyReq → CompanySearchResult) (fuel : Nat) (combos : List Combination)
    (excl : List JStr) (sm : SMState) (out : SMState × List JStr × List CompanyReq)
    (hc : sm.completed = false) (hidx : sm.currentCombinationIndex < combos.length)
    (hrun : processAllCombinations B resp fuel combos excl sm = some out) :
    ∃ r t, out.2.2 = r :: t ∧ r.page = 1 := by
  unfold processAllCombinations at hrun
  rw [hc] at hrun
  simp only [Bool.false_eq_true, if_false] at hrun
  have hne : combos.enum.drop sm.currentCombinationIndex ≠ [] := by
    intro hnil
    rw [List.drop_eq_nil_iff] at hnil
    rw [List.enum_length] at hnil
    omega
  cases hl : combos.enum.drop sm.currentCombinationIndex with
  | nil => exact absurd hl hne
  | cons p rest =>
    obtain ⟨idx, c⟩ := p
    rw [hl] at hrun
    simp only [runCombos] at hrun
    split at hrun
    · exact absurd hrun (by simp)
    · rename_i excl2 sm2 reqs2 hp
      rcases runCombos_requests_extend B resp fuel rest excl2 sm2 reqs2 out hrun with ⟨t2, ht2⟩
      rcases processCombination_first_request B resp fuel c.location c.naicsCode c.jobTitle
        excl _ [] (excl2, sm2, reqs2) hp with ⟨t1, ht1⟩
      dsimp only at ht1
      rw [ht1] at ht2
      simp only [List.nil_append, List.cons_append] at ht2
      exact ⟨_, _, ht2, by simp⟩


/-- Witness for C1 amended: resuming at persisted page 2, the run issues its
first request with page 1. -/
theorem resumed_run_first_request_page_one_witness :
    smResumePage2.completed = false ∧
      smResumePage2.currentCombinationIndex < [comboEx].length ∧
      ∃ r t,
        ((processAllCombinations 50 respEmptyPage 5 [comboEx] [] smResumePage2).getD
            (smResumePage2, [], [])).2.2 = r :: t ∧ r.page = 1 :=
  ⟨rfl, by decide,
    resumed_run_first_request_page_one 50 respEmptyPage 5 [comboEx] [] smResumePage2
      ((processAllCombinations 50 respEmptyPage 5 [comboEx] [] smResumePage2).getD
        (smResumePage2, [], []))
      rfl (by decide) (by decide)⟩

/-- An adversarial response stream: page `p` answers with one company never
seen before (a string id of length `p`) and reports
`totalCount = (p + 1) * 50`, so with batch size 50 the derived total-page
count always sits one page ahead of the page just fetched. -/
def advResp : CompanyReq → CompanySearchResult :=
  fun req =>
    CompanySearchResult.ok [JsVal.str (List.replicate req.page 'a')] ((req.page + 1) * 50)

lemma mem_setAdd_cases {s : List JStr} {x y : JStr} (h : y ∈ setAdd s x) :
    y ∈ s ∨ y = x := by
  unfold setAdd at h
  split at h
  · exact Or.inl h
  · rcases List.mem_append.mp h with h | h
    · exact Or.inl h
    · exact Or.inr (List.mem_singleton.mp h)

lemma pagLoop_advResp_none :
    ∀ (fuel : Nat) (location naics : JStr) (st : PagState),
      (∀ s ∈ st.excl, s.length < st.page) →
      pagLoop 50 advResp location naics fuel st = none := by
  intro fuel
  induction fuel with
  | zero => intro location naics st _; rfl
  | succ f ih =>
    intro location naics st hinv
    have hmem : List.replicate st.page 'a' ∉ st.excl := fun hm => by
      have := hinv _ hm
      simp at this
    have hexc : isCompanyExcluded st.excl (JsVal.str (List.replicate st.page 'a')) = false := by
      simp [isCompanyExcluded, jsToString, hmem]
    have hdiv : ((st.page + 1) * 50 + 50 - 1) / 50 = st.page + 1 := by
      have h1 : (st.page + 1) * 50 + 50 - 1 = 49 + 50 * (st.page + 1) := by
        have h2 : (st.page + 1) * 50 = 50 * (st.page + 1) := Nat.mul_comm _ _
        omega
      rw [h1, Nat.add_mul_div_left _ _ (by omega : (0 : Nat) < 50)]
      simp [Nat.div_eq_of_lt]
    simp only [pagLoop, advResp, List.isEmpty_cons, List.filter_cons, hexc, Bool.not_false,
      if_true, List.isEmpty_nil, hdiv, Bool.false_eq_true, if_false]
    rw [if_neg (by omega : ¬st.page + 1 ≤ st.page)]
    refine ih location naics _ ?_
    intro s hs
    rcases mem_setAdd_cases hs with hs | rfl
    · have := hinv _ hs
      simp only
      omega
    · simp [jsToString]

/-- C4 counterexample: the pagination loop of `processCombination` does not
terminate for every response sequence.  Against `advResp` — fresh companies
on every page, reported total count always one page beyond the current page
— the success path never stops: the 3-consecutive-empty-page counter resets
on every page, the derived total-page bound keeps receding, and the
absolute page ceiling of 50 is checked only on the error path.  No amount
of fuel makes the loop return. -/
theorem pagination_can_diverge :
    (∃ n, (pagLoop 50 advResp ['C', 'O'] ['2', '3', '6'] n
        ⟨1, 0, [], ⟨0, 1, 0, 0, false, none⟩, []⟩).isSome = true) = False :=
  eq_false (by
    rintro ⟨n, hn⟩
    rw [pagLoop_advResp_none n ['C', 'O'] ['2', '3', '6'] _ (by simp)] at hn
    simp at hn)

lemma pagLoop_isSome_of_bounded_total (B : Nat) (resp : CompanyReq → CompanySearchResult)
    (location naics : JStr) (T : Nat) (_hB : 0 < B)
    (hT : ∀ req d t, resp req = CompanySearchResult.ok d t → t ≤ T) :
    ∀ (fuel : Nat) (st : PagState), 1 ≤ fuel →
      max ((T + B - 1) / B) 50 + 1 ≤ st.page + fuel →
      (pagLoop B resp location naics fuel st).isSome = true := by
  have hM50 : 50 ≤ max ((T + B - 1) / B) 50 := Nat.le_max_right _ _
  intro fuel
  induction fuel with
  | zero => intro st h1 _; omega
  | succ f ih =>
    intro st _ h2
    simp only [pagLoop]
    split
    · split
      · simp
      · split
        · simp
        · rename_i msg hth h50
          refine ih _ ?_ ?_
          · simp only [not_lt] at h50
            omega
          · simp only
            omega
    · rename_i data totalCount hr
      have htot : totalCount ≤ T := hT _ _ _ hr
      have hdle : (totalCount + B - 1) / B ≤ (T + B - 1) / B :=
        Nat.div_le_div_right (by omega)
      have hdM : (totalCount + B - 1) / B ≤ max ((T + B - 1) / B) 50 :=
        le_trans hdle (Nat.le_max_left _ _)
      split
      · simp
      · split
        · split
          · simp
          · split
            · simp
            · rename_i hc3 htp
              simp only [not_le] at htp
              refine ih _ (by omega) ?_
              show max ((T + B - 1) / B) 50 + 1 ≤ st.page + 1 + f
              omega
        · split
          · simp
          · rename_i hne htp
            simp only [not_le] at htp
            refine ih _ (by omega) ?_
            show max ((T + B - 1) / B) 50 + 1 ≤ st.page + 1 + f
            omega

/-- C4 amended: the 50-page ceiling governs only the error path, and on the
success path the loop is bounded only by the reported total counts, so
termination holds for every response stream whose reported totals are
bounded: if every successful response reports `totalCount ≤ T` (and the
batch size is positive), `processCombination` finishes within
`max(⌈T / B⌉, 50) + 1` page requests from any start state.  Without such a
bound the loop can run forever (see the counterexample): the claim's list
of exit conditions is right, but no finite bound covers all response
sequences. -/
theorem pagination_terminates_of_bounded_total (B : Nat)
    (resp : CompanyReq → CompanySearchResult) (location naics jt : JStr) (T : Nat)
    (excl : List JStr) (sm : SMState) (reqs : List CompanyReq) (hB : 0 < B)
    (hT : ∀ req d t, resp req = CompanySearchResult.ok d t → t ≤ T) :
    (processCombination B resp (max ((T + B - 1) / B) 50 + 1) location naics jt
        excl sm reqs).isSome = true := by
  simp only [processCombination]
  set p0 := if sm.currentPage = 0 then 1 else sm.currentPage with hp0
  have hp1 : 1 ≤ p0 := by
    rw [hp0]
    split <;> omega
  have hsome := pagLoop_isSome_of_bounded_total B resp location naics T hB hT
    (max ((T + B - 1) / B) 50 + 1) ⟨p0, 0, excl, sm, reqs⟩ (by omega) (by simp only; omega)
  rcases Option.isSome_iff_exists.mp hsome with ⟨stF, hstF⟩
  rw [hstF]
  rfl

/-- Witness for C4 amended: the all-pages-empty endpoint reports total 0, so
with batch size 50 the loop finishes within the computed fuel. -/
theorem pagination_terminates_of_bounded_total_witness :
    (0 : Nat) < 50 ∧
      (∀ req d t, respEmptyPage req = CompanySearchResult.ok d t → t ≤ 0) ∧
      (processCombination 50 respEmptyPage (max ((0 + 50 - 1) / 50) 50 + 1)
          ['C', 'O'] ['2', '3', '6'] ['P', 'M'] [] smResumePage2 []).isSome = true :=
  ⟨by decide,
    fun req d t h => by
      injection h with h1 h2
      omega,
    pagination_terminates_of_bounded_total 50 respEmptyPage ['C', 'O'] ['2', '3', '6']
      ['P', 'M'] 0 [] smResumePage2 [] (by decide)
      (fun req d t h => by
        injection h with h1 h2
        omega)⟩

end ZiLead
